import Mathlib

/-!
Verification development for the `encrypted-fsk` acoustic modem.

The Python sources are shallowly embedded:

* byte strings are `List Nat` with every element `< 256`;
* text strings are `List Char` (or, where only their UTF-8 bytes matter,
  `List Nat` of those bytes);
* machine integers are `Nat` with explicit `% 2 ^ 16` where the Python
  code masks with `0xFFFF`;
* calls into third-party libraries (`cryptography`'s AES block cipher and
  PBKDF2) are parameters of the embedding, constrained only by the
  documented behaviour the code relies on;
* floating point samples and powers are embedded as real numbers
  (exact arithmetic), as the specification's numerical-equivalence
  statements demand.
-/

set_option maxRecDepth 100000

namespace EncryptedFsk

/-! ## CRC (src/cryptofunctions.py, compute_crc / verify_crc)

`binascii.crc_hqx(data, value)` computes the 16-bit CRC with polynomial
0x1021, MSB-first, no reflection and no final XOR, starting from the
initial value `value`.  `compute_crc` calls it with initial value
`0xFFFF` and formats the result as 4 uppercase hex digits. -/

/-- One bit step of `binascii.crc_hqx`: shift left, XOR 0x1021 if the
top bit of the 16-bit register was set. -/
def crcHqxBit (crc : Nat) : Nat :=
  if 2 ^ 15 ≤ crc % 2 ^ 16 then (((crc % 2 ^ 16) * 2) ^^^ 0x1021) % 2 ^ 16
  else (crc % 2 ^ 16) * 2 % 2 ^ 16

/-- One byte step of `binascii.crc_hqx`: XOR the byte into the top 8 bits
and run 8 bit steps. -/
def crcHqxByte (crc b : Nat) : Nat :=
  Nat.iterate crcHqxBit 8 ((crc ^^^ b * 2 ^ 8) % 2 ^ 16)

/-- `binascii.crc_hqx(data, value)` over a byte list. -/
def crc_hqx (data : List Nat) (value : Nat) : Nat :=
  data.foldl crcHqxByte (value % 2 ^ 16)

/-- Uppercase hex digit for a value `< 16` (the `X` format of Python). -/
def hexDigit (n : Nat) : Char :=
  "0123456789ABCDEF".toList.getD n '0'

/-- Python `f"{crc:04X}"` for a 16-bit value: 4 uppercase hex digits. -/
def hex4 (n : Nat) : List Char :=
  [hexDigit (n / 16 ^ 3 % 16), hexDigit (n / 16 ^ 2 % 16),
   hexDigit (n / 16 % 16), hexDigit (n % 16)]

/-- `compute_crc` from src/cryptofunctions.py: CRC of the UTF-8 bytes
with initial value 0xFFFF, formatted as 4 uppercase hex digits. -/
def compute_crc (data : List Nat) : List Char :=
  hex4 (crc_hqx data 0xFFFF)

/-- `verify_crc` from src/cryptofunctions.py: case-insensitive comparison
of the computed CRC with the given hex string. -/
def verify_crc (data : List Nat) (crcHex : List Char) : Bool :=
  compute_crc data = crcHex.map Char.toUpper

/-! ## Hamming(7,4) codec (src/cryptofunctions.py) -/

/-- The generator matrix `G` of `hamming_encode_4bit` (7 rows of 4). -/
def hammingG : List (List Nat) :=
  [[1, 1, 0, 1],
   [1, 0, 1, 1],
   [1, 0, 0, 0],
   [0, 1, 1, 1],
   [0, 1, 0, 0],
   [0, 0, 1, 0],
   [0, 0, 0, 1]]

/-- The parity-check matrix `H` of `hamming_decode_7bit` (3 rows of 7). -/
def hammingH : List (List Nat) :=
  [[1, 0, 1, 0, 1, 0, 1],
   [0, 1, 1, 0, 0, 1, 1],
   [0, 0, 0, 1, 1, 1, 1]]

/-- `hamming_encode_4bit` from src/cryptofunctions.py: the data bits are
taken MSB-first from the nibble and multiplied by `G` mod 2; the result
is the 7 encoded bits, MSB of the string first. -/
def hamming_encode_4bit (nibble : Nat) : List Nat :=
  let bits := [3, 2, 1, 0].map (fun i => nibble / 2 ^ i % 2)
  (List.range 7).map (fun i =>
    ((List.range 4).map (fun j =>
      bits.getD j 0 * (hammingG.getD i []).getD j 0)).sum % 2)

/-- `hamming_decode_7bit` from src/cryptofunctions.py.  The syndrome is
the three parity sums mod 2; Python turns it into an integer by reading
the list `[s0, s1, s2]` as a base-2 string, i.e. `s0*4 + s1*2 + s2`.
A nonzero value flips the bit at that 1-based position, and the data is
re-read from positions 2, 4, 5, 6 (0-based), MSB first. -/
def hamming_decode_7bit (bits : List Nat) : Nat :=
  let syndrome := (List.range 3).map (fun i =>
    ((List.range 7).map (fun j =>
      (hammingH.getD i []).getD j 0 * bits.getD j 0)).sum % 2)
  let errorPos := syndrome.getD 0 0 * 4 + syndrome.getD 1 0 * 2 + syndrome.getD 2 0
  let bits := if errorPos ≠ 0 then
      bits.set (errorPos - 1) ((bits.getD (errorPos - 1) 0) ^^^ 1)
    else bits
  let data := [bits.getD 2 0, bits.getD 4 0, bits.getD 5 0, bits.getD 6 0]
  ((List.range 4).map (fun i => data.getD i 0 * 2 ^ (3 - i))).sum

/-- Flip the bit at (0-based) position `i` of a 7-bit word. -/
def flipBit (i : Nat) (bits : List Nat) : List Nat :=
  bits.set i ((bits.getD i 0) ^^^ 1)

/-! ## Base64 (`base64.b64encode` / `base64.b64decode`)

The standard alphabet, no line breaks.  `b64decode` is modelled on its
success grammar: groups of four alphabet characters, the last group
optionally padded with one or two `=`; any other shape is `none`
(Python raises `binascii.Error`). -/

def b64Alphabet : List Char :=
  "ABCDEFGHIJKLMNOPQRSTUVWXYZabcdefghijklmnopqrstuvwxyz0123456789+/".toList

/-- Alphabet character of a sextet. -/
def b64Char (n : Nat) : Char := b64Alphabet.getD n '?'

/-- Sextet of an alphabet character. -/
def b64Index (c : Char) : Option Nat :=
  (List.range 64).find? (fun i => b64Alphabet.getD i '?' = c)

/-- `base64.b64encode` over a byte list (standard alphabet, `=` padding). -/
def b64encode : List Nat → List Char
  | a :: b :: c :: rest =>
    b64Char (a / 4) :: b64Char (a % 4 * 16 + b / 16) ::
    b64Char (b % 16 * 4 + c / 64) :: b64Char (c % 64) :: b64encode rest
  | [a, b] =>
    [b64Char (a / 4), b64Char (a % 4 * 16 + b / 16), b64Char (b % 16 * 4), '=']
  | [a] => [b64Char (a / 4), b64Char (a % 4 * 16), '=', '=']
  | [] => []

/-- `base64.b64decode` over the well-formed grammar. -/
def b64decode : List Char → Option (List Nat)
  | [] => some []
  | c1 :: c2 :: c3 :: c4 :: rest =>
    match b64Index c1, b64Index c2 with
    | some s1, some s2 =>
      if c3 = '=' then
        if c4 = '=' ∧ rest = [] then some [s1 * 4 + s2 / 16] else none
      else
        match b64Index c3 with
        | some s3 =>
          if c4 = '=' then
            if rest = [] then some [s1 * 4 + s2 / 16, s2 % 16 * 16 + s3 / 4] else none
          else
            match b64Index c4 with
            | some s4 =>
              (b64decode rest).map (fun tl =>
                (s1 * 4 + s2 / 16) :: (s2 % 16 * 16 + s3 / 4) :: (s3 % 4 * 64 + s4) :: tl)
            | none => none
        | none => none
    | _, _ => none
  | _ => none

/-! ## UTF-8 validity (`bytes.decode("utf-8")` succeeds or raises) -/

/-- RFC 3629 UTF-8 validity of a byte list: this is exactly the set of
byte strings Python's `bytes.decode()` accepts. -/
def utf8Valid : List Nat → Bool
  | [] => true
  | b :: rest =>
    if b < 0x80 then utf8Valid rest
    else if 0xC2 ≤ b ∧ b ≤ 0xDF then
      match rest with
      | c1 :: r => (0x80 ≤ c1 && c1 ≤ 0xBF) && utf8Valid r
      | [] => false
    else if b = 0xE0 then
      match rest with
      | c1 :: c2 :: r =>
        (0xA0 ≤ c1 && c1 ≤ 0xBF) && (0x80 ≤ c2 && c2 ≤ 0xBF) && utf8Valid r
      | _ => false
    else if (0xE1 ≤ b ∧ b ≤ 0xEC) ∨ b = 0xEE ∨ b = 0xEF then
      match rest with
      | c1 :: c2 :: r =>
        (0x80 ≤ c1 && c1 ≤ 0xBF) && (0x80 ≤ c2 && c2 ≤ 0xBF) && utf8Valid r
      | _ => false
    else if b = 0xED then
      match rest with
      | c1 :: c2 :: r =>
        (0x80 ≤ c1 && c1 ≤ 0x9F) && (0x80 ≤ c2 && c2 ≤ 0xBF) && utf8Valid r
      | _ => false
    else if b = 0xF0 then
      match rest with
      | c1 :: c2 :: c3 :: r =>
        (0x90 ≤ c1 && c1 ≤ 0xBF) && (0x80 ≤ c2 && c2 ≤ 0xBF) &&
        (0x80 ≤ c3 && c3 ≤ 0xBF) && utf8Valid r
      | _ => false
    else if 0xF1 ≤ b ∧ b ≤ 0xF3 then
      match rest with
      | c1 :: c2 :: c3 :: r =>
        (0x80 ≤ c1 && c1 ≤ 0xBF) && (0x80 ≤ c2 && c2 ≤ 0xBF) &&
        (0x80 ≤ c3 && c3 ≤ 0xBF) && utf8Valid r
      | _ => false
    else if b = 0xF4 then
      match rest with
      | c1 :: c2 :: c3 :: r =>
        (0x80 ≤ c1 && c1 ≤ 0x8F) && (0x80 ≤ c2 && c2 ≤ 0xBF) &&
        (0x80 ≤ c3 && c3 ≤ 0xBF) && utf8Valid r
      | _ => false
    else false

/-- UTF-8 encoding of one code point (`str.encode("utf-8")`, per char). -/
def utf8EncodeCp (n : Nat) : List Nat :=
  if n < 0x80 then [n]
  else if n < 0x800 then [0xC0 + n / 64, 0x80 + n % 64]
  else if n < 0x10000 then [0xE0 + n / 4096, 0x80 + n / 64 % 64, 0x80 + n % 64]
  else [0xF0 + n / 262144, 0x80 + n / 4096 % 64, 0x80 + n / 64 % 64, 0x80 + n % 64]

/-- `str.encode("utf-8")` over the code points of a string. -/
def utf8Encode (l : List Nat) : List Nat :=
  l.foldr (fun cp acc => utf8EncodeCp cp ++ acc) []

/-! ## AES-256-CBC with PKCS#7 (src/cryptofunctions.py, encrypt / decrypt)

The AES-256 block permutation and PBKDF2 are third-party library calls
(`cryptography` package); they enter the embedding as parameters:
`E key`, `D key` are the keyed block encryption/decryption on 16-byte
blocks, and `kdf password salt` is the derived 32-byte key.  CBC
chaining, PKCS#7 padding and the salt/iv layout are translated from the
source. -/

/-- PKCS#7 padding from `encrypt`: `padding_length = 16 - len % 16`
bytes, each equal to `padding_length` (a full block when aligned). -/
def pkcs7pad (pt : List Nat) : List Nat :=
  let padLen := 16 - pt.length % 16
  pt ++ List.replicate padLen padLen

/-- CBC-mode encryption with block function `E` and previous ciphertext
block (initially the IV) `prev`, as performed by
`Cipher(algorithms.AES(key), modes.CBC(iv)).encryptor()`. -/
def cbcEncrypt (E : List Nat → List Nat) (prev pt : List Nat) : List Nat :=
  if h : pt = [] then [] else
    let c := E ((pt.take 16).zipWith (· ^^^ ·) prev)
    c ++ cbcEncrypt E c (pt.drop 16)
termination_by pt.length
decreasing_by
  have := List.length_pos.mpr h
  simp [List.length_drop]
  omega

/-- CBC-mode decryption with block function `D`. -/
def cbcDecrypt (D : List Nat → List Nat) (prev ct : List Nat) : List Nat :=
  if h : ct = [] then [] else
    (D (ct.take 16)).zipWith (· ^^^ ·) prev ++ cbcDecrypt D (ct.take 16) (ct.drop 16)
termination_by ct.length
decreasing_by
  have := List.length_pos.mpr h
  simp [List.length_drop]
  omega

/-- Python error kinds raised along the decrypt path. -/
inductive PyError where
  | valueError
  | indexError
  | unicodeError
  | binasciiError
deriving DecidableEq

/-- `encrypt` from src/cryptofunctions.py.  `salt` and `iv` stand for the
two `os.urandom(16)` draws; plaintext and password are given by their
UTF-8 bytes.  Pads with PKCS#7, encrypts CBC under `E (kdf password
salt)`, and Base64-encodes `salt ++ iv ++ ciphertext`. -/
def encrypt (kdf : List Nat → List Nat → List Nat)
    (E : List Nat → List Nat → List Nat)
    (salt iv plaintext password : List Nat) : List Char :=
  let key := kdf password salt
  b64encode (salt ++ iv ++ cbcEncrypt (E key) iv (pkcs7pad plaintext))

/-- Python `padded_plaintext[-1]` followed by `padded_plaintext[:-n]`
from `decrypt`: indexing an empty byte string raises, and `[:-0]` is the
empty slice (so a trailing `0` byte yields `b""`, not the whole input). -/
def pyUnpad (padded : List Nat) : Except PyError (List Nat) :=
  match padded.getLast? with
  | none => .error .indexError
  | some n => .ok (if n = 0 then [] else padded.take (padded.length - n))

/-- `decrypt` from src/cryptofunctions.py with the error behaviour of the
libraries it calls: `base64.b64decode` rejects malformed Base64;
`modes.CBC(iv)` rejects an IV that is not 16 bytes; `.finalize()`
rejects a ciphertext that is not a multiple of the block size; and
`.decode()` rejects invalid UTF-8.  The PKCS#7 strip is the unvalidated
`padded_plaintext[:-padded_plaintext[-1]]` of the source. -/
def decrypt (kdf : List Nat → List Nat → List Nat)
    (D : List Nat → List Nat → List Nat)
    (encryptedData : List Char) (password : List Nat) :
    Except PyError (List Nat) :=
  match b64decode encryptedData with
  | none => .error .binasciiError
  | some decoded =>
    let salt := decoded.take 16
    let iv := (decoded.drop 16).take 16
    let ct := decoded.drop 32
    let key := kdf password salt
    if iv.length ≠ 16 then .error .valueError
    else if ct.length % 16 ≠ 0 then .error .valueError
    else
      match pyUnpad (cbcDecrypt (D key) iv ct) with
      | .error e => .error e
      | .ok pt => if utf8Valid pt then .ok pt else .error .unicodeError

/-! ## Goertzel (src/receiver.py goertzel_bank_optimized and
src/gui/receiver_gui.py ReceiverApp.goertzel)

Samples and powers are real numbers.  Both sources compute
`k = int(0.5 + (N * freq) / sample_rate)`, `omega = 2*pi*k/N`,
`coeff = 2*cos(omega)`, run the same two-tap recurrence and the same
power formula; the shared helpers below are those shared lines.  The
bank keeps one state pair per frequency (the source's two parallel
lists `s_prev`/`s_prev2` are modelled as one list of pairs). -/

/-- Python `int()` on a real value: truncation toward zero. -/
noncomputable def pyInt (x : ℝ) : ℤ :=
  if 0 ≤ x then ⌊x⌋ else ⌈x⌉

/-- `k = int(0.5 + (N * freq) / sample_rate)`; `omega = 2*pi*k/N`;
`coeff = 2*cos(omega)`. -/
noncomputable def goertzelCoeff (N : Nat) (freq sampleRate : ℝ) : ℝ :=
  let k := pyInt (0.5 + (N * freq) / sampleRate)
  let omega := (2 * Real.pi * k) / N
  2 * Real.cos omega

/-- One sample of the Goertzel recurrence:
`s = sample + coeff*s_prev - s_prev2; s_prev2 = s_prev; s_prev = s`.
The state pair is `(s_prev, s_prev2)`. -/
def goertzelStep (coeff sample : ℝ) (st : ℝ × ℝ) : ℝ × ℝ :=
  (sample + coeff * st.1 - st.2, st.1)

/-- `power = s_prev2**2 + s_prev**2 - coeff * s_prev * s_prev2`. -/
def goertzelPower (coeff : ℝ) (st : ℝ × ℝ) : ℝ :=
  st.2 ^ 2 + st.1 ^ 2 - coeff * st.1 * st.2

/-- `goertzel_bank_optimized` from src/receiver.py: all frequencies are
advanced in lockstep over the same sample block. -/
noncomputable def goertzel_bank_optimized
    (samples freqs : List ℝ) (sampleRate : ℝ) : List ℝ :=
  if samples.length = 0 then List.replicate freqs.length 0
  else
    let coeffs := freqs.map (fun f => goertzelCoeff samples.length f sampleRate)
    let finalStates := samples.foldl
      (fun sts sample => List.zipWith (fun c st => goertzelStep c sample st) coeffs sts)
      (coeffs.map (fun _ => ((0 : ℝ), (0 : ℝ))))
    List.zipWith goertzelPower coeffs finalStates

namespace Gui

/-- The module-level `fs = 44100` of src/gui/receiver_gui.py. -/
noncomputable def fs : ℝ := 44100

/-- `ReceiverApp.goertzel` from src/gui/receiver_gui.py: the
single-frequency Goertzel recurrence at the module sample rate. -/
noncomputable def goertzel (samples : List ℝ) (freq : ℝ) : ℝ :=
  let coeff := goertzelCoeff samples.length freq fs
  let finalState := samples.foldl (fun st sample => goertzelStep coeff sample st)
    ((0 : ℝ), (0 : ℝ))
  goertzelPower coeff finalState

/-- The decision part of `ReceiverApp.detect_bit` (src/gui/receiver_gui.py
lines 75-86) as a function of the two Goertzel powers.  `f0 = 1000`,
`f1 = 2000`, `signal_threshold = 1000`.  Python computes
`ratio = power1/power0 if power0 > 0 else float('inf')`; since
`inf > 1.5` is true, the `power0 <= 0` case returns `'1'`. -/
noncomputable def detect_bit_power (p0 p1 : ℝ) : Option Char :=
  if p0 + p1 < 1000 then none
  else if 0 < p0 then
    if 1.5 < p1 / p0 then some '1'
    else if p1 / p0 < 0.67 then some '0'
    else none
  else some '1'

/-- `ReceiverApp.detect_bit` from src/gui/receiver_gui.py. -/
noncomputable def detect_bit (symbol : List ℝ) : Option Char :=
  detect_bit_power (goertzel symbol 1000) (goertzel symbol 2000)

end Gui

/-! ## MFSK receiver (src/receiver.py)

Configuration: `fs = 44100`, `baud_rate = 45`, `M = 16`,
`bits_per_symbol = 4`, `base_freq = 1000`, `freq_spacing = 100`,
`symbol_len = int(fs / baud_rate) = 980`, `preamble_symbols = 16`,
`signal_threshold = 100`.  The module-level globals form `RxState`;
the audio callback `decode_audio` is a state transition on it, taking
the mono sample column `indata[:, 0]` and the overflow status as
inputs, plus the crypto parameters (`kdf`, AES block decryption `D`,
and the `password` global) threaded through to the finalize path. -/

namespace Receiver

/-- `symbol_len = int(fs / baud_rate)` = 980. -/
def symbol_len : Nat := 44100 / 45

/-- `frequencies = [base_freq + i * freq_spacing for i in range(M)]`. -/
noncomputable def frequencies : List ℝ :=
  (List.range 16).map (fun i : Nat => (1000 : ℝ) + (i : ℝ) * 100)

/-- `sync_patterns['normal'] = [i % M for i in range(preamble_symbols)]`. -/
def normalPattern : List Nat := (List.range 16).map (· % 16)

/-- `sync_patterns['urgent'] = [M-1, 0] * (preamble_symbols // 2)`. -/
def urgentPattern : List Nat := (List.replicate 8 [15, 0]).flatten

/-- `max(len(p) for p in sync_patterns.values())` = 16. -/
def maxSyncLen : Nat := 16

/-- The maximum-power scan of `detect_mfsk_symbol`:
`max_power = 0; max_power_idx = 0; for i, power in enumerate(powers):
if power > max_power: update`. -/
noncomputable def findMaxPower : List ℝ → Nat → ℝ → Nat → ℝ × Nat
  | [], _, mp, mi => (mp, mi)
  | p :: rest, i, mp, mi =>
    if mp < p then findMaxPower rest (i + 1) p i
    else findMaxPower rest (i + 1) mp mi

/-- The second-maximum scan of `detect_mfsk_symbol`:
`second_max = 0; for i, power in enumerate(powers):
if i != max_power_idx and power > second_max: second_max = power`. -/
noncomputable def findSecondMax : List ℝ → Nat → Nat → ℝ → ℝ
  | [], _, _, s => s
  | p :: rest, i, mi, s =>
    findSecondMax rest (i + 1) mi (if i ≠ mi ∧ s < p then p else s)

/-- `detect_mfsk_symbol` from src/receiver.py: Goertzel bank over the
16 configured frequencies, a total-power gate at `signal_threshold =
100`, and a confidence gate: with `confidence = max_power/second_max`
(`float('inf')` when `second_max` is 0), the symbol is dropped when
`confidence < 1.3`; `inf < 1.3` is false, so the gate only fires when
`second_max > 0`. -/
noncomputable def detect_mfsk_symbol (symbolData : List ℝ) :
    Option Nat × Option (List ℝ) × ℝ :=
  let powers := goertzel_bank_optimized symbolData frequencies 44100
  let totalPower := powers.sum
  if totalPower < 100 then (none, none, totalPower)
  else
    let m := findMaxPower powers 0 0 0
    let secondMax := findSecondMax powers 0 m.2 0
    if 0 < secondMax ∧ m.1 / secondMax < 1.3 then (none, none, totalPower)
    else (some m.2, some powers, totalPower)

/-- `symbol_to_bits` from src/receiver.py: raises `ValueError` when the
symbol value reaches `M = 16`, otherwise formats it as
`bits_per_symbol = 4` binary digits, MSB first. -/
def symbol_to_bits (v : Nat) : Except PyError (List Nat) :=
  if 16 ≤ v then .error .valueError
  else .ok [v / 8 % 2, v / 4 % 2, v / 2 % 2, v % 2]

/-- `f"{val:04b}"` for a Hamming-decoded nibble. -/
def nibbleBits (v : Nat) : List Nat := [v / 8 % 2, v / 4 % 2, v / 2 % 2, v % 2]

/-- `int(byte_bits, 2)` for a list of 0/1 bits. -/
def bitsToNat (l : List Nat) : Nat := l.foldl (fun a b => a * 2 + b) 0

/-- `check_sync_patterns` from src/receiver.py: the dict is scanned in
insertion order (`'normal'` first); a hit requires the buffer tail to
equal the whole pattern. -/
def check_sync_patterns (sb : List Nat) : Option Bool :=
  if 16 ≤ sb.length ∧ sb.drop (sb.length - 16) = normalPattern then some false
  else if 16 ≤ sb.length ∧ sb.drop (sb.length - 16) = urgentPattern then some true
  else none

/-- `sync_buffer.append(symbol_value)` followed by the truncation
`if len(sync_buffer) > max_sync_len * 2: sync_buffer =
sync_buffer[-max_sync_len * 2:]`. -/
def syncAppend (sb : List Nat) (v : Nat) : List Nat :=
  let sb := sb ++ [v]
  if maxSyncLen * 2 < sb.length then sb.drop (sb.length - maxSyncLen * 2) else sb

/-- `collections.deque(maxlen := m)` append: push right, drop left on
overflow. -/
def dequePush {α : Type} (maxlen : Nat) (l : List α) (x : α) : List α :=
  let l := l ++ [x]
  if maxlen < l.length then l.drop (l.length - maxlen) else l

/-- The module-level mutable globals of src/receiver.py. -/
structure RxState where
  symbol_buffer : List ℝ
  bit_buffer : List Nat
  byte_buffer : List Nat
  receiving : Bool
  decoded_buffer : List Nat
  sync_buffer : List Nat
  message_count : Nat
  sample_count : Nat
  stats_messages_received : Nat
  stats_messages_failed : Nat
  stats_crc_failures : Nat
  stats_hamming_errors : Nat
  stats_symbol_errors : Nat
  signal_history : List ℝ
  frequency_powers : List (List ℝ)

/-- `reset_receiver_state` from src/receiver.py: clears the five
receive buffers/flags; it does not touch `symbol_buffer`, the counters
or the histories. -/
def reset_receiver_state (st : RxState) : RxState :=
  { st with bit_buffer := [], byte_buffer := [], receiving := false,
            sync_buffer := [], decoded_buffer := [] }

/-- `byte_buffer.rsplit('|', 1)` when `'|'` is known to occur: the part
before the last separator and the part after it. -/
def rsplitLast (l : List Nat) (sep : Nat) : List Nat × List Nat :=
  let idx := l.length - 1 - l.reverse.indexOf sep
  (l.take idx, l.drop (idx + 1))

/-- The `while len(bit_buffer) >= 7` Hamming loop of `decode_audio`:
each round takes a 7-bit block off the front of `bit_buffer` and appends
the 4 decoded bits to `decoded_buffer`.  (The source wraps the decode in
`try/except`, but `hamming_decode_7bit` cannot raise on the `'0'`/`'1'`
blocks this loop feeds it, so the `except` arm is dead.)  Returns the
final `(bit_buffer, decoded_buffer)`. -/
def processHamming (bits decoded : List Nat) : List Nat × List Nat :=
  if h : 7 ≤ bits.length then
    processHamming (bits.drop 7) (decoded ++ nibbleBits (hamming_decode_7bit (bits.take 7)))
  else (bits, decoded)
termination_by bits.length
decreasing_by simp [List.length_drop]; omega

/-- The `while len(decoded_buffer) >= 8` byte loop of `decode_audio`:
STX clears `byte_buffer`; ETX finalizes (missing `'|'` counts a failed
message, resets and returns; otherwise CRC is verified over the UTF-8
bytes of the payload, the message is decrypted on CRC success, the
counters are updated, and the state is reset before the loop
re-checks); any other byte is appended to `byte_buffer`.  (`int(bits,
2)` and `chr` cannot raise here, so the source's `except ValueError`
arm is dead.) -/
def processBytes (kdf D : List Nat → List Nat → List Nat) (pw : List Nat)
    (st : RxState) : RxState :=
  if h : 8 ≤ st.decoded_buffer.length then
    let byteVal := bitsToNat (st.decoded_buffer.take 8)
    let st1 : RxState := { st with decoded_buffer := st.decoded_buffer.drop 8 }
    if byteVal = 2 then
      processBytes kdf D pw { st1 with byte_buffer := [] }
    else if byteVal = 3 then
      if 124 ∈ st1.byte_buffer then
        let parts := rsplitLast st1.byte_buffer 124
        let st2 : RxState :=
          if verify_crc (utf8Encode parts.1) (parts.2.map Char.ofNat) = false then
            { st1 with stats_crc_failures := st1.stats_crc_failures + 1,
                       stats_messages_failed := st1.stats_messages_failed + 1 }
          else
            match decrypt kdf D (parts.1.map Char.ofNat) pw with
            | .ok _ =>
              { st1 with message_count := st1.message_count + 1,
                         stats_messages_received := st1.stats_messages_received + 1 }
            | .error _ =>
              { st1 with stats_messages_failed := st1.stats_messages_failed + 1 }
        processBytes kdf D pw (reset_receiver_state st2)
      else
        reset_receiver_state
          { st1 with stats_messages_failed := st1.stats_messages_failed + 1 }
    else
      processBytes kdf D pw { st1 with byte_buffer := st1.byte_buffer ++ [byteVal] }
  else st
termination_by st.decoded_buffer.length
decreasing_by
  all_goals simp [reset_receiver_state, List.length_drop]
  all_goals omega

/-- The post-lock data path of `decode_audio` (`if receiving:`):
convert the symbol to bits — the `except ValueError` arm counts a
symbol error and resets — then run the Hamming loop and the byte
loop. -/
def processData (kdf D : List Nat → List Nat → List Nat) (pw : List Nat)
    (st : RxState) (v : Nat) : RxState :=
  match symbol_to_bits v with
  | .error _ =>
    reset_receiver_state
      { st with stats_symbol_errors := st.stats_symbol_errors + 1 }
  | .ok bits =>
    let st := { st with bit_buffer := st.bit_buffer ++ bits }
    let hd := processHamming st.bit_buffer st.decoded_buffer
    let st := { st with bit_buffer := hd.1, decoded_buffer := hd.2 }
    processBytes kdf D pw st

/-- The per-symbol tail of `decode_audio` (src/receiver.py lines
234-342), entered when `detect_mfsk_symbol` returned a symbol: history
bookkeeping every 5000 samples, sync-buffer maintenance, the sync-hit
transition (which sets `receiving` and clears `bit_buffer`,
`sync_buffer` and `decoded_buffer` — not `byte_buffer`), and the data
path when already receiving. -/
noncomputable def processSymbol (kdf D : List Nat → List Nat → List Nat)
    (pw : List Nat) (st : RxState) (v : Nat) (powers : Option (List ℝ))
    (totalPower : ℝ) : RxState :=
  let st :=
    if st.sample_count % 5000 = 0 then
      { st with signal_history := dequePush 100 st.signal_history totalPower,
                frequency_powers :=
                  match powers with
                  | some ps => dequePush 50 st.frequency_powers ps
                  | none => st.frequency_powers }
    else st
  let st := { st with sync_buffer := syncAppend st.sync_buffer v }
  if st.receiving = false then
    match check_sync_patterns st.sync_buffer with
    | some _ =>
      { st with bit_buffer := [], sync_buffer := [], decoded_buffer := [],
                receiving := true }
    | none => st
  else
    processData kdf D pw st v

/-- The audio callback `decode_audio` from src/receiver.py.  `ind` is
the mono column `indata[:, 0]`; `overflow` is whether the driver status
reports a buffer overflow (in which case the frame is skipped).  The
callback appends the samples and processes at most ONE complete symbol
block (`if len(symbol_buffer) >= symbol_len`, not `while`). -/
noncomputable def decode_audio (kdf D : List Nat → List Nat → List Nat)
    (pw : List Nat) (st : RxState) (ind : List ℝ) (overflow : Bool) : RxState :=
  if overflow then st
  else
    let st := { st with sample_count := st.sample_count + ind.length }
    let buf := st.symbol_buffer ++ ind
    if symbol_len ≤ buf.length then
      let symbolData := buf.take symbol_len
      let st := { st with symbol_buffer := buf.drop symbol_len }
      match detect_mfsk_symbol symbolData with
      | (none, _, _) => st
      | (some v, powers, totalPower) => processSymbol kdf D pw st v powers totalPower
    else
      { st with symbol_buffer := buf }

end Receiver

/-! ## Claim theorems -/

/-- ASCII bytes of the string `"123456789"`. -/
def ascii123456789 : List Nat := [49, 50, 51, 52, 53, 54, 55, 56, 57]

/-- The initial receiver state: every buffer empty, every counter 0
(module init plus `reset_receiver_state()`). -/
def rxInit : Receiver.RxState :=
  ⟨[], [], [], false, [], [], 0, 0, 0, 0, 0, 0, 0, [], []⟩

/-- C2 counterexample: `compute_crc("123456789")` is not the
CRC-16/XMODEM check value `"31C3"` claimed by the spec. -/
theorem crc_not_xmodem_vector :
    compute_crc ascii123456789 ≠ ['3', '1', 'C', '3'] := by decide

/-- C2 (amended): `compute_crc` produces a 4-character uppercase-hex
string and, being poly 0x1021 / init 0xFFFF / unreflected / no final
XOR (CRC-16/CCITT-FALSE), maps `"123456789"` to `"29B1"`; the same
register initialised with 0 (true CRC-16/XMODEM) would give 0x31C3. -/
theorem crc_ccitt_false_vector :
    (∀ data : List Nat, (compute_crc data).length = 4) ∧
    compute_crc ascii123456789 = ['2', '9', 'B', '1'] ∧
    crc_hqx ascii123456789 0xFFFF = 0x29B1 ∧
    crc_hqx ascii123456789 0 = 0x31C3 :=
  ⟨fun _ => rfl, by decide, by decide, by decide⟩

/-- C3 (code bug): flipping bit 2 of the codeword of nibble 0b1011 and
decoding does NOT recover 0b1011 — the decoder reads the syndrome
MSB-first (`int(''.join(syndrome), 2)`) while the columns of `H` encode
the error position LSB-first, so it "corrects" position 5 instead of
position 2 and returns 0b0001. -/
theorem hamming_miscorrection_at_pos2 :
    hamming_decode_7bit (flipBit 2 (hamming_encode_4bit 11)) = 1 ∧
    hamming_decode_7bit (flipBit 2 (hamming_encode_4bit 11)) ≠ 11 := by decide

/-- C7 counterexample: `hamming_encode_4bit(0b1011)` is `0110011`, not
the codeword `1001011` stated by the spec. -/
theorem hamming_vector_not_spec :
    hamming_encode_4bit 11 ≠ [1, 0, 0, 1, 0, 1, 1] := by decide

/-- C7 (amended): with the `G` of the source, encode(0b1011) =
`0110011`; flipping bit 3 (the third position, index 2) gives
`0100011`; the decoder, due to its syndrome bit-order slip, returns
0b0001 — not 0b1011. -/
theorem hamming_vector_actual :
    hamming_encode_4bit 11 = [0, 1, 1, 0, 0, 1, 1] ∧
    flipBit 2 (hamming_encode_4bit 11) = [0, 1, 0, 0, 0, 1, 1] ∧
    hamming_decode_7bit [0, 1, 0, 0, 0, 1, 1] = 1 := by decide

/-- C9 counterexample: the power pair (1000, 668) passes the gate and
has ratio 0.668, which is above 1/1.5 = 0.666…, so the claim says the
decider returns `None`; the code compares against 0.67 and returns
`'0'`. -/
theorem detect_bit_zero_above_two_thirds :
    Gui.detect_bit_power 1000 668 = some '0' ∧
    (1 / 1.5 : ℝ) < 668 / 1000 ∧ ¬(1.5 < (668 / 1000 : ℝ)) := by
  refine ⟨?_, by norm_num, by norm_num⟩
  rw [Gui.detect_bit_power]
  rw [if_neg (by norm_num), if_pos (by norm_num), if_neg (by norm_num),
    if_pos (by norm_num)]

/-- C9 (amended): for every power pair passing the gate
(`total_power ≥ 1000`) with `P_f0 > 0`, the decider returns `'1'` iff
`P_f1/P_f0 > 1.5`, `'0'` iff `P_f1/P_f0 < 0.67` (the code's literal
threshold, not 1/1.5), and `None` iff the ratio is between the two;
when `P_f0 ≤ 0` the ratio is `float('inf')` and it returns `'1'`. -/
theorem detect_bit_characterization (p0 p1 : ℝ) (hgate : ¬(p0 + p1 < 1000)) :
    (0 < p0 →
      (Gui.detect_bit_power p0 p1 = some '1' ↔ 1.5 < p1 / p0) ∧
      (Gui.detect_bit_power p0 p1 = some '0' ↔ p1 / p0 < 0.67) ∧
      (Gui.detect_bit_power p0 p1 = none ↔
        0.67 ≤ p1 / p0 ∧ p1 / p0 ≤ 1.5)) ∧
    (p0 ≤ 0 → Gui.detect_bit_power p0 p1 = some '1') := by
  rw [Gui.detect_bit_power, if_neg hgate]
  constructor
  · intro h0
    rw [if_pos h0]
    split_ifs with h1 h2 <;>
      refine ⟨?_, ?_, ?_⟩ <;>
      constructor <;>
      intro h <;>
      simp_all <;>
      linarith
  · intro h0
    rw [if_neg (not_lt.mpr h0)]

/-- C9 witness: the pair (1000, 2000) passes the gate, has positive
`P_f0` and ratio 2 > 1.5, so the decider returns `'1'`. -/
theorem detect_bit_characterization_witness :
    Gui.detect_bit_power 1000 2000 = some '1' :=
  (((detect_bit_characterization 1000 2000 (by norm_num)).1
    (by norm_num)).1).mpr (by norm_num)

/-- C5 (amended): on the Idle-to-Locked transition — the tail of the
updated symbol history matches a sync pattern while not receiving —
`decode_audio` sets `receiving` and clears `bit_buffer` (raw_bits),
`decoded_buffer` (decoded_bits) and `sync_buffer` (sync_history), but it
does NOT clear `byte_buffer` (text_buf): that buffer keeps its previous
contents until an STX byte or a state reset. -/
theorem sync_transition_clears (kdf D : List Nat → List Nat → List Nat)
    (pw : List Nat) (st : Receiver.RxState) (v : Nat)
    (powers : Option (List ℝ)) (totalPower : ℝ)
    (hrecv : st.receiving = false)
    (hsync : (Receiver.check_sync_patterns
      (Receiver.syncAppend st.sync_buffer v)).isSome) :
    (Receiver.processSymbol kdf D pw st v powers totalPower).receiving = true ∧
    (Receiver.processSymbol kdf D pw st v powers totalPower).bit_buffer = [] ∧
    (Receiver.processSymbol kdf D pw st v powers totalPower).decoded_buffer = [] ∧
    (Receiver.processSymbol kdf D pw st v powers totalPower).sync_buffer = [] ∧
    (Receiver.processSymbol kdf D pw st v powers totalPower).byte_buffer
      = st.byte_buffer := by
  obtain ⟨b, hb⟩ := Option.isSome_iff_exists.mp hsync
  simp only [Receiver.processSymbol.eq_def]
  split_ifs <;> simp_all

/-- C5 witness: a state one symbol short of the normal preamble, with a
leftover byte in `byte_buffer`, receives symbol 15: the sync fires and
`byte_buffer` survives. -/
theorem sync_transition_clears_witness :
    (Receiver.processSymbol (fun _ _ => []) (fun _ b => b) []
      { rxInit with byte_buffer := [65], sync_buffer := List.range 15,
                    sample_count := 1 } 15 none 0).receiving = true ∧
    (Receiver.processSymbol (fun _ _ => []) (fun _ b => b) []
      { rxInit with byte_buffer := [65], sync_buffer := List.range 15,
                    sample_count := 1 } 15 none 0).bit_buffer = [] ∧
    (Receiver.processSymbol (fun _ _ => []) (fun _ b => b) []
      { rxInit with byte_buffer := [65], sync_buffer := List.range 15,
                    sample_count := 1 } 15 none 0).decoded_buffer = [] ∧
    (Receiver.processSymbol (fun _ _ => []) (fun _ b => b) []
      { rxInit with byte_buffer := [65], sync_buffer := List.range 15,
                    sample_count := 1 } 15 none 0).sync_buffer = [] ∧
    (Receiver.processSymbol (fun _ _ => []) (fun _ b => b) []
      { rxInit with byte_buffer := [65], sync_buffer := List.range 15,
                    sample_count := 1 } 15 none 0).byte_buffer
      = ({ rxInit with byte_buffer := [65], sync_buffer := List.range 15,
                       sample_count := 1 } : Receiver.RxState).byte_buffer :=
  sync_transition_clears (fun _ _ => []) (fun _ b => b) []
    { rxInit with byte_buffer := [65], sync_buffer := List.range 15,
                  sample_count := 1 } 15 none 0 rfl (by decide)

/-- C5 counterexample: at that same sync hit the claim demands
`text_buf` (`byte_buffer`) be cleared, but it still holds byte 65
afterwards. -/
theorem sync_keeps_byte_buffer :
    (Receiver.processSymbol (fun _ _ => []) (fun _ b => b) []
      { rxInit with byte_buffer := [65], sync_buffer := List.range 15,
                    sample_count := 1 } 15 none 0).byte_buffer = [65] ∧
    ([65] : List Nat) ≠ [] := by
  exact ⟨by decide, by decide⟩

namespace Receiver

/-- A reset state has an empty `decoded_buffer`, so the byte loop
returns it unchanged. -/
theorem processBytes_reset (kdf D : List Nat → List Nat → List Nat)
    (pw : List Nat) (st : RxState) :
    processBytes kdf D pw (reset_receiver_state st) = reset_receiver_state st := by
  rw [processBytes.eq_def, dif_neg]
  simp [reset_receiver_state]

/-- The byte loop touches neither the sample accumulator nor the
symbol-error counter. -/
theorem processBytes_preserves (kdf D : List Nat → List Nat → List Nat)
    (pw : List Nat) :
    ∀ (n : Nat) (st : RxState), st.decoded_buffer.length ≤ n →
      (processBytes kdf D pw st).symbol_buffer = st.symbol_buffer ∧
      (processBytes kdf D pw st).stats_symbol_errors = st.stats_symbol_errors := by
  intro n
  induction n with
  | zero =>
    intro st hn
    rw [processBytes.eq_def, dif_neg (by omega)]
    exact ⟨rfl, rfl⟩
  | succ n ih =>
    intro st hn
    rw [processBytes.eq_def]
    by_cases h8 : 8 ≤ st.decoded_buffer.length
    · rw [dif_pos h8]
      simp only []
      split_ifs with hstx hetx hmem hcrc
      · have hih := ih { st with
          decoded_buffer := st.decoded_buffer.drop 8
          byte_buffer := [] } (by simp; omega)
        exact ⟨by simpa using hih.1, by simpa using hih.2⟩
      · rw [processBytes_reset]
        exact ⟨rfl, rfl⟩
      · rw [processBytes_reset]
        constructor <;> (split <;> rfl)
      · exact ⟨rfl, rfl⟩
      · have hih := ih { st with
          decoded_buffer := st.decoded_buffer.drop 8
          byte_buffer := st.byte_buffer ++ [bitsToNat (st.decoded_buffer.take 8)] }
          (by simp; omega)
        exact ⟨by simpa using hih.1, by simpa using hih.2⟩
    · rw [dif_neg h8]
      exact ⟨rfl, rfl⟩

/-- The data path touches the sample accumulator in no arm. -/
theorem processData_symbol_buffer (kdf D : List Nat → List Nat → List Nat)
    (pw : List Nat) (st : RxState) (v : Nat) :
    (processData kdf D pw st v).symbol_buffer = st.symbol_buffer := by
  rw [processData]
  split <;>
    simp [reset_receiver_state,
      (processBytes_preserves kdf D pw _ _ le_rfl).1]

/-- For an in-range symbol the `except ValueError` arm is not taken, so
the data path leaves the symbol-error counter unchanged. -/
theorem processData_symbol_errors (kdf D : List Nat → List Nat → List Nat)
    (pw : List Nat) (st : RxState) (v : Nat) (hv : v < 16) :
    (processData kdf D pw st v).stats_symbol_errors = st.stats_symbol_errors := by
  rw [processData]
  have hok : symbol_to_bits v = .ok [v / 8 % 2, v / 4 % 2, v / 2 % 2, v % 2] := by
    rw [symbol_to_bits, if_neg (by omega)]
  rw [hok]
  simp [(processBytes_preserves kdf D pw _ _ le_rfl).2]

/-- The per-symbol tail never touches the sample accumulator. -/
theorem processSymbol_symbol_buffer (kdf D : List Nat → List Nat → List Nat)
    (pw : List Nat) (st : RxState) (v : Nat) (powers : Option (List ℝ))
    (totalPower : ℝ) :
    (processSymbol kdf D pw st v powers totalPower).symbol_buffer
      = st.symbol_buffer := by
  simp only [processSymbol.eq_def]
  split_ifs <;> (try split) <;>
    first
    | rfl
    | simp [processData_symbol_buffer]

/-- For an in-range symbol the per-symbol tail leaves the symbol-error
counter unchanged. -/
theorem processSymbol_symbol_errors (kdf D : List Nat → List Nat → List Nat)
    (pw : List Nat) (st : RxState) (v : Nat) (powers : Option (List ℝ))
    (totalPower : ℝ) (hv : v < 16) :
    (processSymbol kdf D pw st v powers totalPower).stats_symbol_errors
      = st.stats_symbol_errors := by
  simp only [processSymbol.eq_def]
  split_ifs <;> (try split) <;>
    first
    | rfl
    | simp [processData_symbol_errors _ _ _ _ _ hv]

/-- The Goertzel bank returns one power per requested frequency. -/
theorem goertzel_bank_length (samples freqs : List ℝ) (sampleRate : ℝ) :
    (goertzel_bank_optimized samples freqs sampleRate).length = freqs.length := by
  have hlen : ∀ (coeffs : List ℝ) (l : List ℝ) (sts : List (ℝ × ℝ)),
      sts.length = coeffs.length →
      (l.foldl (fun sts sample =>
        List.zipWith (fun c st => goertzelStep c sample st) coeffs sts)
        sts).length = coeffs.length := by
    intro coeffs l
    induction l with
    | nil => intro sts h; simpa using h
    | cons s rest ih =>
      intro sts h
      simp only [List.foldl_cons]
      exact ih _ (by simp [h])
  rw [goertzel_bank_optimized]
  split_ifs with h
  · simp
  · simp only [List.length_zipWith]
    rw [hlen _ _ _ (by simp)]
    simp

/-- The maximum-power scan returns either its incoming index or the
index of some scanned element. -/
theorem findMaxPower_idx_bound (l : List ℝ) :
    ∀ (i : Nat) (mp : ℝ) (mi : Nat),
      (findMaxPower l i mp mi).2 = mi ∨ (findMaxPower l i mp mi).2 < i + l.length := by
  induction l with
  | nil => intro i mp mi; simp [findMaxPower]
  | cons p rest ih =>
    intro i mp mi
    rw [findMaxPower]
    split_ifs
    · rcases ih (i + 1) p i with h | h
      · right; rw [h]; simp
      · right; simp only [List.length_cons]; omega
    · rcases ih (i + 1) mp mi with h | h
      · left; exact h
      · right; simp only [List.length_cons]; omega

/-- C10 helper: any symbol value returned by `detect_mfsk_symbol` is a
valid MFSK symbol, i.e. below `M = 16`. -/
theorem detect_some_lt (sd : List ℝ) (v : Nat) (p : Option (List ℝ)) (t : ℝ)
    (h : detect_mfsk_symbol sd = (some v, p, t)) : v < 16 := by
  have hlen : (goertzel_bank_optimized sd frequencies 44100).length = 16 := by
    rw [goertzel_bank_length]
    simp only [frequencies, List.length_map, List.length_range]
  rw [detect_mfsk_symbol] at h
  by_cases h1 : (goertzel_bank_optimized sd frequencies 44100).sum < 100
  · rw [if_pos h1] at h
    exact absurd (congrArg (fun q => q.1) h) (by simp)
  · rw [if_neg h1] at h
    simp only [] at h
    by_cases h2 : 0 < findSecondMax (goertzel_bank_optimized sd frequencies 44100) 0
          (findMaxPower (goertzel_bank_optimized sd frequencies 44100) 0 0 0).2 0 ∧
        (findMaxPower (goertzel_bank_optimized sd frequencies 44100) 0 0 0).1 /
            findSecondMax (goertzel_bank_optimized sd frequencies 44100) 0
              (findMaxPower (goertzel_bank_optimized sd frequencies 44100) 0 0 0).2 0 <
          1.3
    · rw [if_pos h2] at h
      exact absurd (congrArg (fun q => q.1) h) (by simp)
    · rw [if_neg h2] at h
      have hv : v = (findMaxPower
          (goertzel_bank_optimized sd frequencies 44100) 0 0 0).2 := by
        have h3 := congrArg (fun q => q.1) h
        simpa using h3.symm
      rcases findMaxPower_idx_bound
          (goertzel_bank_optimized sd frequencies 44100) 0 0 0 with hb | hb
      · omega
      · rw [hlen] at hb; omega

/-- What the callback does to the sample accumulator (no overflow):
append the incoming block, then remove exactly one `symbol_len` slice
when one is available — regardless of how the symbol decision goes. -/
theorem decode_audio_symbol_buffer (kdf D : List Nat → List Nat → List Nat)
    (pw : List Nat) (st : RxState) (ind : List ℝ) :
    (decode_audio kdf D pw st ind false).symbol_buffer =
      if symbol_len ≤ (st.symbol_buffer ++ ind).length
      then (st.symbol_buffer ++ ind).drop symbol_len
      else st.symbol_buffer ++ ind := by
  rw [decode_audio]
  simp only [Bool.false_eq_true, if_false]
  split_ifs with hlen
  · rcases hdet : detect_mfsk_symbol ((st.symbol_buffer ++ ind).take symbol_len)
      with ⟨_ | v, powers, totalPower⟩
    · rfl
    · exact processSymbol_symbol_buffer kdf D pw _ v powers totalPower
  · rfl

/-- Zipping a list against a mapped copy of itself is a map. -/
theorem zipWith_map_same {α β γ : Type} (f : α → β → γ) (g : α → β) :
    ∀ l : List α, List.zipWith f l (l.map g) = l.map (fun a => f a (g a)) := by
  intro l
  induction l with
  | nil => rfl
  | cons a rest ih => simp [ih]

/-- The fused per-sample update of the bank, started from per-frequency
initial states, equals the per-frequency fold of the single-frequency
update. -/
theorem foldl_zipWith_goertzel (coeffs : List ℝ) (samples : List ℝ) :
    ∀ init : ℝ → ℝ × ℝ,
      samples.foldl
        (fun sts sample => List.zipWith (fun c st => goertzelStep c sample st) coeffs sts)
        (coeffs.map init)
      = coeffs.map
          (fun c => samples.foldl (fun st sample => goertzelStep c sample st) (init c)) := by
  induction samples with
  | nil => intro init; rfl
  | cons s rest ih =>
    intro init
    simp only [List.foldl_cons]
    rw [zipWith_map_same]
    exact ih (fun c => goertzelStep c s (init c))

end Receiver

/-- C6 (amended): each callback invocation removes at most ONE complete
symbol block from the accumulator (the source uses `if`, not `while`):
with no overflow status, the accumulator afterwards holds
`n + frames - symbol_len` samples when `n + frames ≥ symbol_len` and
`n + frames` otherwise.  In particular fewer than `symbol_len` samples
remain only when at most one complete block was available. -/
theorem callback_slices_one_symbol (kdf D : List Nat → List Nat → List Nat)
    (pw : List Nat) (st : Receiver.RxState) (ind : List ℝ) :
    (Receiver.decode_audio kdf D pw st ind false).symbol_buffer.length =
      if Receiver.symbol_len ≤ st.symbol_buffer.length + ind.length
      then st.symbol_buffer.length + ind.length - Receiver.symbol_len
      else st.symbol_buffer.length + ind.length := by
  rw [Receiver.decode_audio_symbol_buffer]
  split_ifs with h1 h2 h2 <;>
    simp_all [List.length_drop]

/-- C6 counterexample: starting from the empty accumulator, a callback
delivering `2 * symbol_len = 1960` samples leaves a full `symbol_len =
980` samples behind — not fewer than `symbol_len` as claimed. -/
theorem callback_leaves_full_symbol :
    ¬((Receiver.decode_audio (fun _ _ => []) (fun _ b => b) [] rxInit
        (List.replicate 1960 (0 : ℝ)) false).symbol_buffer.length
      < Receiver.symbol_len) := by
  rw [Receiver.decode_audio_symbol_buffer]
  have h980 : Receiver.symbol_len = 980 := rfl
  rw [if_pos] <;>
    simp [rxInit, h980]

/-- C10: the symbol-error branch of `decode_audio` is unreachable: a
symbol value returned by `detect_mfsk_symbol` is always below `M = 16`
(`detect_some_lt`), so `symbol_to_bits` never raises and
`stats['symbol_errors']` is never incremented, whatever the receiver
state, the incoming block and the driver status. -/
theorem no_symbol_errors (kdf D : List Nat → List Nat → List Nat)
    (pw : List Nat) (st : Receiver.RxState) (ind : List ℝ) (overflow : Bool) :
    (Receiver.decode_audio kdf D pw st ind overflow).stats_symbol_errors
      = st.stats_symbol_errors := by
  rw [Receiver.decode_audio]
  split_ifs with hov
  · rfl
  · simp only []
    split_ifs with hlen
    · rcases hdet : Receiver.detect_mfsk_symbol
          ((st.symbol_buffer ++ ind).take Receiver.symbol_len)
        with ⟨_ | v, powers, totalPower⟩
      · rfl
      · exact Receiver.processSymbol_symbol_errors kdf D pw _ v powers totalPower
          (Receiver.detect_some_lt _ _ _ _ hdet)
    · rfl

/-- C8: on every non-empty sample block the fused Goertzel bank of the
receiver is numerically (exact real arithmetic) equivalent to running
the GUI's single-frequency Goertzel independently per frequency:
`goertzel_bank_optimized(samples, freqs, fs)[i] = goertzel(samples,
freqs[i])` for every index, at the shared sample rate `fs = 44100`. -/
theorem goertzel_bank_equiv (samples freqs : List ℝ) (h : samples ≠ []) :
    goertzel_bank_optimized samples freqs Gui.fs
      = freqs.map (fun f => Gui.goertzel samples f) := by
  rw [goertzel_bank_optimized, if_neg (by simpa using h)]
  simp only []
  rw [Receiver.foldl_zipWith_goertzel, Receiver.zipWith_map_same, List.map_map]
  simp only [Gui.goertzel, Function.comp_def]

/-- C8 witness: the one-sample block `[1]` at frequency 1000. -/
theorem goertzel_bank_equiv_witness :
    goertzel_bank_optimized [(1 : ℝ)] [(1000 : ℝ)] Gui.fs
      = List.map (fun f => Gui.goertzel [(1 : ℝ)] f) [(1000 : ℝ)] :=
  goertzel_bank_equiv [(1 : ℝ)] [(1000 : ℝ)] (by simp)

/-! ### Base64, XOR, padding and CBC lemmas for the crypto claims -/

/-- Decoding inverts the alphabet map on every sextet. -/
theorem b64Index_b64Char : ∀ s ∈ List.range 64, b64Index (b64Char s) = some s := by
  decide

/-- No alphabet character is the padding character. -/
theorem b64Char_ne_pad : ∀ s ∈ List.range 64, b64Char s ≠ '=' := by decide

/-- `b64Index_b64Char` with an arithmetic bound. -/
theorem b64Index_lt (s : Nat) (h : s < 64) : b64Index (b64Char s) = some s :=
  b64Index_b64Char s (List.mem_range.mpr h)

/-- `b64Char_ne_pad` with an arithmetic bound. -/
theorem b64Char_ne (s : Nat) (h : s < 64) : b64Char s ≠ '=' :=
  b64Char_ne_pad s (List.mem_range.mpr h)

/-- `base64.b64decode` inverts `base64.b64encode` on byte lists. -/
theorem b64_roundtrip : ∀ bs : List Nat, (∀ x ∈ bs, x < 256) →
    b64decode (b64encode bs) = some bs := by
  intro bs
  induction bs using b64encode.induct with
  | case1 a b c rest ih =>
    intro hb
    have ha : a < 256 := hb a (by simp)
    have hbb : b < 256 := hb b (by simp)
    have hc : c < 256 := hb c (by simp)
    have ihh := ih (fun x hx => hb x (by simp [hx]))
    have h1 : b64Index (b64Char (a / 4)) = some (a / 4) := b64Index_lt _ (by omega)
    have h2 : b64Index (b64Char (a % 4 * 16 + b / 16)) = some (a % 4 * 16 + b / 16) :=
      b64Index_lt _ (by omega)
    have h3 : b64Index (b64Char (b % 16 * 4 + c / 64)) = some (b % 16 * 4 + c / 64) :=
      b64Index_lt _ (by omega)
    have h4 : b64Index (b64Char (c % 64)) = some (c % 64) := b64Index_lt _ (by omega)
    have n3 : b64Char (b % 16 * 4 + c / 64) ≠ '=' := b64Char_ne _ (by omega)
    have n4 : b64Char (c % 64) ≠ '=' := b64Char_ne _ (by omega)
    simp only [b64encode, b64decode, h1, h2, h3, h4, n3, n4, if_false, ihh,
      Option.map_some', Option.some.injEq, List.cons.injEq]
    refine ⟨by omega, by omega, by omega, trivial⟩
  | case2 a b =>
    intro hb
    have ha : a < 256 := hb a (by simp)
    have hbb : b < 256 := hb b (by simp)
    have h1 : b64Index (b64Char (a / 4)) = some (a / 4) := b64Index_lt _ (by omega)
    have h2 : b64Index (b64Char (a % 4 * 16 + b / 16)) = some (a % 4 * 16 + b / 16) :=
      b64Index_lt _ (by omega)
    have h3 : b64Index (b64Char (b % 16 * 4)) = some (b % 16 * 4) :=
      b64Index_lt _ (by omega)
    have n3 : b64Char (b % 16 * 4) ≠ '=' := b64Char_ne _ (by omega)
    simp only [b64encode, b64decode, h1, h2, h3, n3, if_false, if_pos rfl,
      Option.some.injEq, List.cons.injEq]
    simp only [if_true, Option.some.injEq, List.cons.injEq]
    refine ⟨by omega, by omega, trivial⟩
  | case3 a =>
    intro hb
    have ha : a < 256 := hb a (by simp)
    have h1 : b64Index (b64Char (a / 4)) = some (a / 4) := b64Index_lt _ (by omega)
    have h2 : b64Index (b64Char (a % 4 * 16)) = some (a % 4 * 16) :=
      b64Index_lt _ (by omega)
    simp only [b64encode, b64decode, h1, h2, if_pos rfl,
      Option.some.injEq, List.cons.injEq]
    simp only [and_self, if_true, Option.some.injEq, List.cons.injEq]
    refine ⟨by omega, trivial⟩
  | case4 =>
    intro _
    rfl

/-- XOR with the same 16-byte block twice is the identity. -/
theorem zipWith_xor_cancel : ∀ (a p : List Nat), p.length = a.length →
    ((a.zipWith (· ^^^ ·) p).zipWith (· ^^^ ·) p) = a := by
  intro a
  induction a with
  | nil => intro p h; simp
  | cons x xs ih =>
    intro p h
    cases p with
    | nil => simp at h
    | cons y ys =>
      simp only [List.zipWith_cons_cons, List.cons.injEq]
      exact ⟨Nat.xor_cancel_right y x, ih ys (by simpa using h)⟩

/-- XOR of two byte lists is a byte list. -/
theorem zipWith_xor_bytes : ∀ (a p : List Nat), (∀ x ∈ a, x < 256) →
    (∀ x ∈ p, x < 256) → ∀ x ∈ a.zipWith (· ^^^ ·) p, x < 256 := by
  intro a
  induction a with
  | nil => intro p _ _ x hx; simp at hx
  | cons y ys ih =>
    intro p ha hp x hx
    cases p with
    | nil => simp at hx
    | cons z zs =>
      simp only [List.zipWith_cons_cons, List.mem_cons] at hx
      rcases hx with rfl | hx
      · have h1 : y < 2 ^ 8 := ha y (by simp)
        have h2 : z < 2 ^ 8 := hp z (by simp)
        exact Nat.xor_lt_two_pow h1 h2
      · exact ih zs (fun u hu => ha u (by simp [hu]))
          (fun u hu => hp u (by simp [hu])) x hx

/-- The PKCS#7-padded plaintext is block-aligned. -/
theorem pkcs7pad_length (pt : List Nat) :
    (pkcs7pad pt).length = pt.length + (16 - pt.length % 16) := by
  simp [pkcs7pad]

/-- The PKCS#7-padded plaintext has a length that is a multiple of 16. -/
theorem pkcs7pad_length_mod (pt : List Nat) : (pkcs7pad pt).length % 16 = 0 := by
  rw [pkcs7pad_length]
  omega

/-- Padding bytes are below 256 when the plaintext bytes are. -/
theorem pkcs7pad_bytes (pt : List Nat) (h : ∀ x ∈ pt, x < 256) :
    ∀ x ∈ pkcs7pad pt, x < 256 := by
  intro x hx
  rw [pkcs7pad] at hx
  simp only [List.mem_append, List.mem_replicate] at hx
  rcases hx with hx | ⟨_, rfl⟩
  · exact h x hx
  · omega

/-- The last element of a nonempty replicate. -/
theorem getLast?_replicate (x : Nat) : ∀ k : Nat, k ≠ 0 →
    (List.replicate k x).getLast? = some x := by
  intro k
  induction k with
  | zero => intro h; omega
  | succ n ih =>
    intro _
    rcases Nat.eq_zero_or_pos n with rfl | hn
    · rfl
    · rw [List.replicate_succ, List.getLast?_cons, ih (by omega)]
      simp

/-- The Python-style unpad of `decrypt` inverts the PKCS#7 pad of
`encrypt`. -/
theorem pyUnpad_pkcs7 (pt : List Nat) : pyUnpad (pkcs7pad pt) = Except.ok pt := by
  have hpadpos : 16 - pt.length % 16 ≠ 0 := by omega
  rw [pyUnpad, pkcs7pad]
  rw [List.getLast?_append, getLast?_replicate _ _ hpadpos]
  simp only [Option.or_some]
  rw [if_neg hpadpos]
  congr 1
  rw [List.length_append, List.length_replicate, Nat.add_sub_cancel]
  exact List.take_left' rfl

/-- CBC encryption of a block-aligned plaintext has the same length. -/
theorem cbcEncrypt_length (E : List Nat → List Nat)
    (hE : ∀ b, b.length = 16 → (E b).length = 16)
    (pt prev : List Nat) (hpt : pt.length % 16 = 0) (hprev : prev.length = 16) :
    (cbcEncrypt E prev pt).length = pt.length := by
  rw [cbcEncrypt]
  split_ifs with h
  · simp [h]
  · have hpos := List.length_pos.mpr h
    have h16 : 16 ≤ pt.length := by omega
    have htake : ((pt.take 16).zipWith (· ^^^ ·) prev).length = 16 := by
      rw [List.length_zipWith, List.length_take, hprev]
      omega
    have hc := hE _ htake
    rw [List.length_append, hc,
      cbcEncrypt_length E hE (pt.drop 16) _ (by rw [List.length_drop]; omega) hc,
      List.length_drop]
    omega
termination_by pt.length
decreasing_by
  have := List.length_pos.mpr h
  rw [List.length_drop]
  omega

/-- CBC encryption of block-aligned bytes yields bytes. -/
theorem cbcEncrypt_bytes (E : List Nat → List Nat)
    (hE : ∀ b, b.length = 16 → (E b).length = 16)
    (hE256 : ∀ b, b.length = 16 → (∀ x ∈ b, x < 256) → ∀ x ∈ E b, x < 256)
    (pt prev : List Nat) (hpt : pt.length % 16 = 0) (hprev : prev.length = 16)
    (hptB : ∀ x ∈ pt, x < 256) (hprevB : ∀ x ∈ prev, x < 256) :
    ∀ x ∈ cbcEncrypt E prev pt, x < 256 := by
  rw [cbcEncrypt]
  split_ifs with h
  · intro x hx
    simp at hx
  · have hpos := List.length_pos.mpr h
    have h16 : 16 ≤ pt.length := by omega
    have htake : ((pt.take 16).zipWith (· ^^^ ·) prev).length = 16 := by
      rw [List.length_zipWith, List.length_take, hprev]
      omega
    have hxorB : ∀ x ∈ (pt.take 16).zipWith (· ^^^ ·) prev, x < 256 :=
      zipWith_xor_bytes _ _ (fun x hx => hptB x (List.take_subset _ _ hx)) hprevB
    have hcB : ∀ x ∈ E ((pt.take 16).zipWith (· ^^^ ·) prev), x < 256 :=
      hE256 _ htake hxorB
    intro x hx
    rcases List.mem_append.mp hx with hx | hx
    · exact hcB x hx
    · exact cbcEncrypt_bytes E hE hE256 (pt.drop 16) _
        (by rw [List.length_drop]; omega) (hE _ htake)
        (fun u hu => hptB u (List.drop_subset _ _ hu)) hcB x hx
termination_by pt.length
decreasing_by
  have := List.length_pos.mpr h
  rw [List.length_drop]
  omega

/-- CBC decryption inverts CBC encryption on block-aligned plaintexts
when the block function `D` inverts `E` on 16-byte blocks. -/
theorem cbc_roundtrip (E D : List Nat → List Nat)
    (hED : ∀ b, b.length = 16 → D (E b) = b)
    (hE : ∀ b, b.length = 16 → (E b).length = 16)
    (pt prev : List Nat) (hpt : pt.length % 16 = 0) (hprev : prev.length = 16) :
    cbcDecrypt D prev (cbcEncrypt E prev pt) = pt := by
  rcases eq_or_ne pt [] with rfl | hne
  · rw [cbcEncrypt, cbcDecrypt] <;> simp
  · have hpos := List.length_pos.mpr hne
    have h16 : 16 ≤ pt.length := by omega
    have htakelen : (pt.take 16).length = 16 := by
      rw [List.length_take]; omega
    have hxorlen : ((pt.take 16).zipWith (· ^^^ ·) prev).length = 16 := by
      rw [List.length_zipWith, htakelen, hprev]
      simp
    have hclen := hE _ hxorlen
    rw [cbcEncrypt, dif_neg hne]
    rw [cbcDecrypt, dif_neg (by
      intro habs
      have := congrArg List.length habs
      rw [List.length_append, hclen] at this
      simp at this)]
    rw [List.take_left' hclen, List.drop_left' hclen, hED _ hxorlen,
      zipWith_xor_cancel _ _ (by rw [hprev, htakelen]),
      cbc_roundtrip E D hED hE (pt.drop 16) _
        (by rw [List.length_drop]; omega) hclen,
      List.take_append_drop]
termination_by pt.length
decreasing_by
  rw [List.length_drop]
  omega

/-- C1: the crypto round trip.  For every non-empty UTF-8 plaintext `p`
(given by its UTF-8 bytes) and every passphrase, with `salt` and `iv`
any 16-byte draws of `os.urandom`, and with the AES-256 block cipher
`E`/`D` and PBKDF2 `kdf` satisfying only their library contracts (`D k`
inverts `E k` on 16-byte blocks; `E k` maps 16-byte blocks to 16-byte
blocks of bytes), `decrypt(encrypt(p, pw), pw)` returns exactly `p`:
the PKCS#7 pad, the CBC pass, and the Base64 framing of
`salt ‖ iv ‖ ciphertext` are each inverted. -/
theorem crypto_roundtrip (kdf E D : List Nat → List Nat → List Nat)
    (salt iv p pw : List Nat)
    (hsalt : salt.length = 16) (hiv : iv.length = 16)
    (hsaltB : ∀ x ∈ salt, x < 256) (hivB : ∀ x ∈ iv, x < 256)
    (hED : ∀ k b, b.length = 16 → D k (E k b) = b)
    (hE : ∀ k b, b.length = 16 → (E k b).length = 16)
    (hE256 : ∀ k b, b.length = 16 → (∀ x ∈ b, x < 256) → ∀ x ∈ E k b, x < 256)
    (hp : p ≠ []) (hpB : ∀ x ∈ p, x < 256) (hputf : utf8Valid p = true) :
    decrypt kdf D (encrypt kdf E salt iv p pw) pw = Except.ok p := by
  have hpadmod := pkcs7pad_length_mod p
  have hctlen := cbcEncrypt_length (E (kdf pw salt)) (hE _) (pkcs7pad p) iv
    hpadmod hiv
  have hctB := cbcEncrypt_bytes (E (kdf pw salt)) (hE _) (hE256 _) (pkcs7pad p) iv
    hpadmod hiv (pkcs7pad_bytes p hpB) hivB
  have hallB : ∀ x ∈ salt ++ iv ++ cbcEncrypt (E (kdf pw salt)) iv (pkcs7pad p),
      x < 256 := by
    intro x hx
    rcases List.mem_append.mp hx with hx | hx
    · rcases List.mem_append.mp hx with hx | hx
      · exact hsaltB x hx
      · exact hivB x hx
    · exact hctB x hx
  have hdec := b64_roundtrip _ hallB
  have h1 : (salt ++ iv ++ cbcEncrypt (E (kdf pw salt)) iv (pkcs7pad p)).take 16
      = salt := by
    rw [List.append_assoc]
    exact List.take_left' hsalt
  have h2 : ((salt ++ iv ++ cbcEncrypt (E (kdf pw salt)) iv (pkcs7pad p)).drop 16).take 16
      = iv := by
    rw [List.append_assoc, List.drop_left' hsalt]
    exact List.take_left' hiv
  have h3 : (salt ++ iv ++ cbcEncrypt (E (kdf pw salt)) iv (pkcs7pad p)).drop 32
      = cbcEncrypt (E (kdf pw salt)) iv (pkcs7pad p) :=
    List.drop_left' (by rw [List.length_append, hsalt, hiv])
  rw [encrypt, decrypt]
  simp only []
  rw [hdec]
  simp only [h1, h2, h3]
  rw [if_neg (by rw [hiv]; exact fun hne => hne rfl)]
  rw [if_neg (by rw [hctlen, hpadmod]; exact fun hne => hne rfl)]
  rw [cbc_roundtrip (E (kdf pw salt)) (D (kdf pw salt)) (hED _) (hE _)
    (pkcs7pad p) iv hpadmod hiv]
  rw [pyUnpad_pkcs7]
  simp [hputf]

/-- C1 witness: plaintext `"hi"` ([104, 105]), passphrase `"k"` ([107]),
zero salt and IV, identity block cipher and constant KDF. -/
theorem crypto_roundtrip_witness :
    decrypt (fun _ _ => List.replicate 32 0) (fun _ b => b)
      (encrypt (fun _ _ => List.replicate 32 0) (fun _ b => b)
        (List.replicate 16 0) (List.replicate 16 0) [104, 105] [107]) [107]
      = Except.ok [104, 105] :=
  crypto_roundtrip (fun _ _ => List.replicate 32 0) (fun _ b => b) (fun _ b => b)
    (List.replicate 16 0) (List.replicate 16 0) [104, 105] [107]
    (by decide) (by decide) (by decide) (by decide)
    (fun _ _ _ => rfl) (fun _ _ h => h) (fun _ _ _ h => h)
    (by decide) (by decide) (by decide)

/-- C4 counterexample: an input whose PKCS#7 padding is invalid (the
decrypted block ends in byte 0, which is never a legal pad length) on
which `decrypt` nevertheless returns a string instead of raising: the
source strips `padded[:-padded[-1]]` without validating, and `[:-0]`
silently yields the empty string. -/
theorem decrypt_accepts_invalid_padding :
    decrypt (fun _ _ => []) (fun _ b => b)
        (b64encode (List.replicate 48 0)) [] = Except.ok [] ∧
    (cbcDecrypt (fun b => b) (List.replicate 16 0)
        (List.replicate 16 0)).getLast? = some 0 := by
  have hxor : ∀ n : Nat, List.zipWith (· ^^^ ·) (List.replicate n (0 : Nat))
      (List.replicate n 0) = List.replicate n 0 := by
    intro n
    induction n with
    | zero => rfl
    | succ k ih => simp [List.replicate_succ, ih]
  have hcbc : cbcDecrypt (fun b => b) (List.replicate 16 (0 : Nat))
      (List.replicate 16 0) = List.replicate 16 0 := by
    rw [cbcDecrypt, dif_neg (by decide)]
    rw [List.take_replicate, List.drop_replicate]
    norm_num
    rw [cbcDecrypt]
    norm_num
  have hdec : b64decode (b64encode (List.replicate 48 (0 : Nat)))
      = some (List.replicate 48 0) := b64_roundtrip _ (by decide)
  constructor
  · rw [decrypt]
    simp only []
    rw [hdec]
    simp only [List.take_replicate, List.drop_replicate]
    norm_num
    rw [hcbc]
    rfl
  · rw [hcbc]
    rw [getLast?_replicate _ _ (by decide)]

/-- C4 (amended): `decrypt` fails with an error whenever the
Base64-decoded data has length < 32, or `(length − 32) % 16 ≠ 0`, or
the (Python-style, unvalidated) unpadded bytes are not valid UTF-8.
The original claim's remaining case — PKCS#7 padding invalid but the
stripped result valid UTF-8 — does NOT raise (see the counterexample):
the source never validates the padding bytes. -/
theorem decrypt_error_conditions (kdf D : List Nat → List Nat → List Nat)
    (pw : List Nat) (s : List Char) (decoded : List Nat)
    (hdec : b64decode s = some decoded)
    (h : decoded.length < 32 ∨ (decoded.length - 32) % 16 ≠ 0 ∨
      (∀ pt, pyUnpad (cbcDecrypt (D (kdf pw (decoded.take 16)))
          ((decoded.drop 16).take 16) (decoded.drop 32)) = Except.ok pt →
        utf8Valid pt = false)) :
    ∃ e, decrypt kdf D s pw = Except.error e := by
  rw [decrypt]
  simp only []
  rw [hdec]
  simp only [ne_eq]
  split_ifs with hiv hct
  · have hlen32 : 32 ≤ decoded.length := by
      rw [List.length_take, List.length_drop] at hiv
      omega
    have hmod : (decoded.length - 32) % 16 = 0 := by
      rw [List.length_drop] at hct
      exact hct
    rcases h with h | h | h
    · omega
    · exact absurd hmod h
    · rcases hup : pyUnpad (cbcDecrypt (D (kdf pw (decoded.take 16)))
          ((decoded.drop 16).take 16) (decoded.drop 32)) with e | pt
      · exact ⟨e, rfl⟩
      · simp only [h pt hup, Bool.false_eq_true, if_false]
        exact ⟨_, rfl⟩
  · exact ⟨_, rfl⟩
  · exact ⟨_, rfl⟩

/-- C4 witness: the one-byte input `b"\x00"` (Base64 `"AA=="`) decodes
to length 1 < 32, so `decrypt` raises. -/
theorem decrypt_error_conditions_witness :
    ∃ e, decrypt (fun _ _ => []) (fun _ b => b) (b64encode [0]) []
      = Except.error e :=
  decrypt_error_conditions (fun _ _ => []) (fun _ b => b) [] (b64encode [0]) [0]
    (by decide) (Or.inl (by decide))

end EncryptedFsk
